import Mathlib

/-!
Verification of the coredhcp `consul_range` plugin (`plugins/consul_range/plugin.go`).

Times are modelled as `Int` nanoseconds since the Unix epoch, matching Go's
`time.Time`/`time.Duration` resolution; a stored `Expires` field is an `Int`
Unix timestamp in whole seconds, exactly as in the Go `Record` struct.
IPv4 addresses are modelled as `Nat` values below `2^32` (the Go code compares
them via `binary.BigEndian.Uint32`).
-/

/-- Nanoseconds in one second (`time.Second`). -/
def secNS : Int := 1000000000

/-- Go `time.Time.Unix()`: whole seconds since epoch, flooring the nanosecond part. -/
def goUnix (t : Int) : Int := t.fdiv secNS

/-- Go `t.Round(time.Second).Unix()`: round the instant to the nearest whole
second (halfway rounds up) and return Unix seconds. -/
def goRoundUnix (t : Int) : Int := (t + secNS / 2).fdiv secNS

/-- Go `d.Round(time.Second)` for a `time.Duration` `d`: round to the nearest
multiple of a second, halfway values rounding away from zero. -/
def roundDur (d : Int) : Int :=
  if 0 ≤ d then ((d + secNS / 2).fdiv secNS) * secNS
  else -((((-d) + secNS / 2).fdiv secNS) * secNS)

/-- The `Record` struct of plugin.go: one DHCP lease record. -/
structure Record where
  ip : Nat
  expires : Int
  hostname : String
deriving DecidableEq

/-- Modelled from the spec (§4.2): the Address Allocator is external to
`src/` (package `plugins/allocators/bitmap`); only its contract is given.
It tracks a fixed closed IPv4 range `[lo, hi]` and the set of taken
addresses. -/
structure Allocator where
  lo : Nat
  hi : Nat
  taken : List Nat
deriving DecidableEq

/-- Modelled from the spec (§4.2): an address is free when it lies in the
configured range and is not taken. -/
def Allocator.isFree (a : Allocator) (ip : Nat) : Bool :=
  decide (a.lo ≤ ip) && decide (ip ≤ a.hi) && !(a.taken.contains ip)

/-- Modelled from the spec (§4.2): `AllocateAny` — return some free address of
the range and mark it taken, or fail when the pool is exhausted; deterministic
(first free address). On failure no state is mutated. -/
def Allocator.allocateAny (a : Allocator) : Option (Nat × Allocator) :=
  match (List.range' a.lo (a.hi + 1 - a.lo)).find? (fun ip => !(a.taken.contains ip)) with
  | none => none
  | some ip => some (ip, ⟨a.lo, a.hi, ip :: a.taken⟩)

/-- Modelled from the spec (§4.1 step 3 and §4.2): `AllocateExact` — reserve
the requested address when it is free; otherwise the allocator may reserve a
different address (the spec's startup-recovery explicitly handles an allocator
that "reserves a different address than requested") or report exhaustion. -/
def Allocator.allocateExact (a : Allocator) (ip : Nat) : Option (Nat × Allocator) :=
  if a.isFree ip then some (ip, ⟨a.lo, a.hi, ip :: a.taken⟩) else a.allocateAny

/-- Lookup in the `Recordsv4` map (Go `record, ok := p.Recordsv4[key]`). -/
def lookupRec : List (String × Record) → String → Option Record
  | [], _ => none
  | (k', v) :: rest, k => if k' = k then some v else lookupRec rest k

/-- Map update (Go `p.Recordsv4[key] = &rec`, and the in-place mutation of an
existing record through its pointer). -/
def setRec : List (String × Record) → String → Record → List (String × Record)
  | [], k, v => [(k, v)]
  | (k', v') :: rest, k, v => if k' = k then (k, v) :: rest else (k', v') :: setRec rest k v

/-- The whole observable state: the in-memory `Recordsv4` table, the allocator,
and the contents of the durable (Consul KV) record store. -/
structure World where
  records : List (String × Record)
  alloc : Allocator
  store : List (String × Record)
deriving DecidableEq

/-- Result of one `Handler4` invocation: the new state, the response written
into the reply (`YourIPAddr` and the rounded lease-time option), `none` when
the handler drops the request, and the key of the `saveIPAddress` persistence
call when one was made. -/
structure LeaseOut where
  w : World
  resp : Option (Nat × Int)
  saved : Option String
deriving DecidableEq

/-- `saveIPAddress` at the store boundary: the write reaches the durable store
only when the external store call succeeds (`persistOk`); a failed call leaves
the store unchanged and is merely logged by the Go code. -/
def saveIP (store : List (String × Record)) (persistOk : Bool) (k : String) (v : Record) :
    List (String × Record) :=
  if persistOk then setRec store k v else store

/-- Translation of `PluginState.Handler4` (plugin.go lines 49-89).
`hw` is `req.ClientHWAddr.String()`, `hn` is `req.HostName()`, `now` is the
current time in nanoseconds, `D` the configured `LeaseTime` in nanoseconds,
and `persistOk` tells whether the external `saveIPAddress` call succeeds. -/
def handler4 (w : World) (D : Int) (hw hn : String) (now : Int) (persistOk : Bool) : LeaseOut :=
  match lookupRec w.records hw with
  | none =>
    match w.alloc.allocateAny with
    | none => ⟨w, none, none⟩
    | some (ip, a2) =>
      let rec0 : Record := ⟨ip, goUnix (now + D), hn⟩
      ⟨⟨setRec w.records hw rec0, a2, saveIP w.store persistOk hw rec0⟩,
        some (ip, roundDur D), some hw⟩
  | some r =>
    if r.expires * secNS < now + D then
      let r2 : Record := ⟨r.ip, goRoundUnix (now + D), hn⟩
      ⟨⟨setRec w.records hw r2, w.alloc, saveIP w.store persistOk hw r2⟩,
        some (r.ip, roundDur D), some hw⟩
    else
      ⟨w, some (r.ip, roundDur D), none⟩

/-- Split a character list at every dot (Go `net.ParseIP` field separation for
dotted-quad literals). -/
def splitDots : List Char → List (List Char)
  | [] => [[]]
  | '.' :: r => [] :: splitDots r
  | c :: r =>
    match splitDots r with
    | [] => [[c]]
    | g :: gs => (c :: g) :: gs

/-- One decimal field of a dotted-quad IPv4 literal: 1 to 3 digits, no leading
zero (Go rejects leading zeros in IPv4 fields), value at most 255. -/
def parseOctet (cs : List Char) : Option Nat :=
  if cs.isEmpty then none
  else if 3 < cs.length then none
  else if 1 < cs.length ∧ cs.headD '!' = '0' then none
  else if cs.all Char.isDigit then
    let n := cs.foldl (fun a c => a * 10 + (c.toNat - 48)) 0
    if n ≤ 255 then some n else none
  else none

/-- Go `net.ParseIP(s)` followed by `.To4()` and `binary.BigEndian.Uint32`,
for dotted-quad IPv4 literals: four valid octets, combined big-endian. -/
def parseIPv4 (s : String) : Option Nat :=
  match (splitDots s.data).map parseOctet with
  | [some a, some b, some c, some d] => some (((a * 256 + b) * 256 + c) * 256 + d)
  | _ => none

/-- Digit run as a decimal value (Go `leadingInt`). -/
def digitsVal (ds : List Char) : Int :=
  ds.foldl (fun a c => a * 10 + Int.ofNat (c.toNat - 48)) 0

/-- Go `time.ParseDuration` unit table, longest unit first where prefixes
overlap ("ms" before "m"): nanoseconds per unit and the remaining input. -/
def parseUnit : List Char → Option (Int × List Char)
  | 'n' :: 's' :: r => some (1, r)
  | 'u' :: 's' :: r => some (1000, r)
  | 'µ' :: 's' :: r => some (1000, r)
  | 'μ' :: 's' :: r => some (1000, r)
  | 'm' :: 's' :: r => some (1000000, r)
  | 's' :: r => some (1000000000, r)
  | 'm' :: r => some (60000000000, r)
  | 'h' :: r => some (3600000000000, r)
  | _ => none

/-- Value of one `number unit` segment: integer part times the unit plus the
fractional digits scaled into the unit. -/
def segVal (intDs fracDs : List Char) (u : Int) : Int :=
  digitsVal intDs * u + (digitsVal fracDs * u).fdiv ((10 : Int) ^ fracDs.length)

/-- The repeated `[number unit]+` part of Go `time.ParseDuration`: each segment
is a digit run, an optional fraction, and a unit; at least one digit must be
present in each segment. The fuel argument bounds recursion by input length. -/
def parseSegs : Nat → List Char → Option Int
  | _, [] => some 0
  | 0, _ => none
  | fuel + 1, cs =>
    let s1 := cs.span Char.isDigit
    let s2 :=
      match s1.2 with
      | '.' :: r => r.span Char.isDigit
      | _ => ([], s1.2)
    if s1.1.isEmpty ∧ s2.1.isEmpty then none
    else
      match parseUnit s2.2 with
      | none => none
      | some (u, rest) =>
        match parseSegs fuel rest with
        | none => none
        | some v => some (segVal s1.1 s2.1 u + v)

/-- Go `time.ParseDuration`: optional sign, the special case `"0"`, then one
or more `number unit` segments; result in nanoseconds. -/
def parseGoDuration (s : String) : Option Int :=
  let signed : Bool × List Char :=
    match s.data with
    | '-' :: r => (true, r)
    | '+' :: r => (false, r)
    | cs => (false, cs)
  if signed.2 = ['0'] then some 0
  else if signed.2.isEmpty then none
  else
    match parseSegs (signed.2.length + 1) signed.2 with
    | none => none
    | some v => some (if signed.1 then -v else v)

/-- Result of `setupConsulRange`: a handler closed over the initial state and
lease duration, or a descriptive error. -/
inductive SetupResult where
  | ok (w : World) (leaseTime : Int)
  | err (msg : String)
deriving DecidableEq

/-- The startup-recovery loop of `setupConsulRange` (plugin.go lines 152-160):
for each loaded record, ask the allocator for exactly that record's address and
fail on an allocation error or on a reservation that differs from the request. -/
def replayRecords (a : Allocator) : List (String × Record) → Option Allocator
  | [] => some a
  | (_, v) :: rest =>
    match a.allocateExact v.ip with
    | none => none
    | some (ip, a2) => if ip = v.ip then replayRecords a2 rest else none

/-- The addresses the startup-recovery loop asks the allocator to reserve, in
order, up to and including the first failing request. -/
def replayReqs (a : Allocator) : List (String × Record) → List Nat
  | [] => []
  | (_, v) :: rest =>
    match a.allocateExact v.ip with
    | none => [v.ip]
    | some (ip, a2) => if ip = v.ip then v.ip :: replayReqs a2 rest else [v.ip]

/-- Translation of `setupConsulRange` (plugin.go lines 91-169). `loaded` is the
result of the external `loadRecords` call against the Consul store (`none`
when that call fails); the allocator and Consul client construction are the
spec-modelled external collaborators. -/
def setupConsulRange (args : List String) (loaded : Option (List (String × Record))) :
    SetupResult :=
  if args.length < 5 then .err "invalid number of arguments" else
  if args.getD 0 "" = "" then .err "Consul URL cannot be empty" else
  if args.getD 1 "" = "" then .err "Consul KV prefix cannot be empty" else
  match parseIPv4 (args.getD 2 "") with
  | none => .err "invalid IPv4 address: start"
  | some ipRangeStart =>
    match parseIPv4 (args.getD 3 "") with
    | none => .err "invalid IPv4 address: end"
    | some ipRangeEnd =>
      if ipRangeStart ≥ ipRangeEnd then
        .err "start of IP range has to be lower than the end of an IP range"
      else
        match parseGoDuration (args.getD 4 "") with
        | none => .err "invalid lease duration"
        | some d =>
          match loaded with
          | none => .err "could not load records from file"
          | some recs =>
            match replayRecords ⟨ipRangeStart, ipRangeEnd, []⟩ recs with
            | none => .err "failed to re-allocate leased ip"
            | some a2 => .ok ⟨recs, a2, recs⟩ d

/-- One request of a run: hardware identifier rendering, reported hostname,
request time, and whether the store write (if any) succeeds. -/
structure Req where
  hw : String
  hostname : String
  now : Int
  persistOk : Bool
deriving DecidableEq

/-- A sequence of `Handler4` invocations folded over the state. -/
def runLease (D : Int) (w : World) : List Req → World
  | [] => w
  | q :: qs => runLease D (handler4 w D q.hw q.hostname q.now q.persistOk).w qs

/-- Invariant I3 of the spec: no IPv4 address appears in more than one
lease-table record. -/
def tableInj (w : World) : Prop :=
  ∀ k1 k2 r1 r2, k1 ≠ k2 → lookupRec w.records k1 = some r1 →
    lookupRec w.records k2 = some r2 → r1.ip ≠ r2.ip

/-- Invariant I2 of the spec: every table record's address is marked
allocated in the Address Allocator. -/
def allocCovers (w : World) : Prop :=
  ∀ k r, lookupRec w.records k = some r → r.ip ∈ w.alloc.taken

/-- The conjunction of the spec's table/allocator invariants I2 and I3. -/
def LeaseInv (w : World) : Prop := tableInj w ∧ allocCovers w

/-- The state produced by a successful setup over range 10.0.0.2-10.0.0.4 with
one loaded record, used as a concrete startup state. -/
def w0c : World :=
  ⟨[("aa", ⟨167772162, 100, "x"⟩)], ⟨167772162, 167772164, [167772162]⟩,
    [("aa", ⟨167772162, 100, "x"⟩)]⟩

theorem lookupRec_setRec_self (m : List (String × Record)) (k : String) (v : Record) :
    lookupRec (setRec m k v) k = some v := by
  induction m with
  | nil => simp [setRec, lookupRec]
  | cons kv rest ih =>
    obtain ⟨k', v'⟩ := kv
    by_cases h : k' = k
    · simp [setRec, lookupRec, h]
    · simp [setRec, lookupRec, h, ih]

theorem lookupRec_setRec_ne (m : List (String × Record)) (k k2 : String) (v : Record)
    (h : k2 ≠ k) : lookupRec (setRec m k v) k2 = lookupRec m k2 := by
  have h2 : ¬(k = k2) := fun e => h e.symm
  induction m with
  | nil => simp [setRec, lookupRec, h2]
  | cons kv rest ih =>
    obtain ⟨k', v'⟩ := kv
    by_cases hk : k' = k
    · subst hk
      simp [setRec, lookupRec, h2]
    · by_cases hk2 : k' = k2
      · subst hk2
        simp [setRec, lookupRec, hk]
      · simp [setRec, lookupRec, hk, hk2, ih]

theorem lookupRec_mem (m : List (String × Record)) (k : String) (v : Record)
    (h : lookupRec m k = some v) : (k, v) ∈ m := by
  induction m with
  | nil => simp [lookupRec] at h
  | cons kv rest ih =>
    obtain ⟨k', v'⟩ := kv
    by_cases hk : k' = k
    · subst hk
      simp [lookupRec] at h
      subst h
      exact List.mem_cons_self _ _
    · simp [lookupRec, hk] at h
      exact List.mem_cons_of_mem _ (ih h)

theorem contains_false_not_mem (l : List Nat) (a : Nat) (h : l.contains a = false) :
    a ∉ l := by
  intro hm
  have h2 : l.contains a = true := List.elem_eq_true_of_mem hm
  rw [h2] at h
  cases h

theorem allocateAny_some (a : Allocator) (ip : Nat) (a2 : Allocator)
    (h : a.allocateAny = some (ip, a2)) :
    a.lo ≤ ip ∧ ip ≤ a.hi ∧ ip ∉ a.taken ∧ a2 = ⟨a.lo, a.hi, ip :: a.taken⟩ := by
  unfold Allocator.allocateAny at h
  cases hf : (List.range' a.lo (a.hi + 1 - a.lo)).find? (fun x => !(a.taken.contains x)) with
  | none => rw [hf] at h; cases h
  | some x =>
    rw [hf] at h
    simp only [Option.some.injEq, Prod.mk.injEq] at h
    obtain ⟨rfl, rfl⟩ := h
    have hmem := List.mem_range'_1.mp (List.mem_of_find?_eq_some hf)
    have hp := List.find?_some hf
    have hc : a.taken.contains x = false := by
      cases hcc : a.taken.contains x with
      | false => rfl
      | true => rw [hcc] at hp; cases hp
    exact ⟨hmem.1, by omega, contains_false_not_mem _ _ hc, rfl⟩

theorem allocateExact_exact (a : Allocator) (ip : Nat) (a2 : Allocator)
    (h : a.allocateExact ip = some (ip, a2)) :
    ip ∉ a.taken ∧ a2 = ⟨a.lo, a.hi, ip :: a.taken⟩ := by
  unfold Allocator.allocateExact at h
  by_cases hfree : a.isFree ip = true
  · rw [if_pos hfree] at h
    simp only [Option.some.injEq, Prod.mk.injEq] at h
    obtain ⟨-, rfl⟩ := h
    unfold Allocator.isFree at hfree
    simp only [Bool.and_eq_true, decide_eq_true_eq] at hfree
    exact ⟨contains_false_not_mem _ _ (by
      cases hcc : a.taken.contains ip with
      | false => rfl
      | true => rw [hcc] at hfree; simp at hfree), rfl⟩
  · rw [if_neg hfree] at h
    obtain ⟨hlo, hhi, hnm, rfl⟩ := allocateAny_some a ip a2 h
    refine absurd ?_ hfree
    unfold Allocator.isFree
    simp [hlo, hhi, hnm]

theorem handler4_fresh_fail (w : World) (D : Int) (hw hn : String) (now : Int) (p : Bool)
    (h1 : lookupRec w.records hw = none) (h2 : w.alloc.allocateAny = none) :
    handler4 w D hw hn now p = ⟨w, none, none⟩ := by
  simp only [handler4, h1, h2]

theorem handler4_fresh_some (w : World) (D : Int) (hw hn : String) (now : Int) (p : Bool)
    (ip : Nat) (a2 : Allocator)
    (h1 : lookupRec w.records hw = none) (h2 : w.alloc.allocateAny = some (ip, a2)) :
    handler4 w D hw hn now p =
      ⟨⟨setRec w.records hw ⟨ip, goUnix (now + D), hn⟩, a2,
          saveIP w.store p hw ⟨ip, goUnix (now + D), hn⟩⟩,
        some (ip, roundDur D), some hw⟩ := by
  simp only [handler4, h1, h2]

theorem handler4_renew (w : World) (D : Int) (hw hn : String) (now : Int) (p : Bool)
    (r : Record) (h1 : lookupRec w.records hw = some r)
    (hc : r.expires * secNS < now + D) :
    handler4 w D hw hn now p =
      ⟨⟨setRec w.records hw ⟨r.ip, goRoundUnix (now + D), hn⟩, w.alloc,
          saveIP w.store p hw ⟨r.ip, goRoundUnix (now + D), hn⟩⟩,
        some (r.ip, roundDur D), some hw⟩ := by
  simp only [handler4, h1]
  rw [if_pos hc]

theorem handler4_norenew (w : World) (D : Int) (hw hn : String) (now : Int) (p : Bool)
    (r : Record) (h1 : lookupRec w.records hw = some r)
    (hc : ¬ r.expires * secNS < now + D) :
    handler4 w D hw hn now p = ⟨w, some (r.ip, roundDur D), none⟩ := by
  simp only [handler4, h1]
  rw [if_neg hc]

theorem handler4_existing (w : World) (D : Int) (hw hn : String) (now : Int) (p : Bool)
    (r : Record) (hrec : lookupRec w.records hw = some r) :
    (handler4 w D hw hn now p).resp = some (r.ip, roundDur D) ∧
      ∃ r2, lookupRec (handler4 w D hw hn now p).w.records hw = some r2 ∧ r2.ip = r.ip := by
  by_cases hc : r.expires * secNS < now + D
  · rw [handler4_renew w D hw hn now p r hrec hc]
    exact ⟨rfl, ⟨_, lookupRec_setRec_self _ _ _, rfl⟩⟩
  · rw [handler4_norenew w D hw hn now p r hrec hc]
    exact ⟨rfl, ⟨r, hrec, rfl⟩⟩

/-- C1: for an existing record with expiry `E`, a `Lease` call at time `now`
with configured duration `D` (and a succeeding store client) renews — setting
both the in-memory and the durable record's expiry to `now + D` rounded to
whole seconds — if and only if the instant `E` lies before `now + D`
(`E * secNS < now + D` with `E` in Unix seconds); otherwise neither state
component is mutated and no persistence call is made (`saved = none`). -/
theorem renewal_threshold (w : World) (D : Int) (hw hn : String) (now : Int) (r : Record)
    (hrec : lookupRec w.records hw = some r) :
    handler4 w D hw hn now true =
      if r.expires * secNS < now + D then
        ⟨⟨setRec w.records hw ⟨r.ip, goRoundUnix (now + D), hn⟩, w.alloc,
            setRec w.store hw ⟨r.ip, goRoundUnix (now + D), hn⟩⟩,
          some (r.ip, roundDur D), some hw⟩
      else ⟨w, some (r.ip, roundDur D), none⟩ := by
  by_cases hc : r.expires * secNS < now + D
  · rw [if_pos hc, handler4_renew w D hw hn now true r hrec hc]
    rfl
  · rw [if_neg hc]
    exact handler4_norenew w D hw hn now true r hrec hc

theorem renewal_threshold_witness :
    lookupRec [("aa", (⟨3, 7200, "h"⟩ : Record))] "aa" = some (⟨3, 7200, "h"⟩ : Record) ∧
      handler4 ⟨[("aa", ⟨3, 7200, "h"⟩)], ⟨2, 4, [3]⟩, [("aa", ⟨3, 7200, "h"⟩)]⟩
          3600000000000 "aa" "h2" 0 true =
        if (7200 : Int) * secNS < 0 + 3600000000000 then
          ⟨⟨setRec [("aa", ⟨3, 7200, "h"⟩)] "aa" ⟨3, goRoundUnix (0 + 3600000000000), "h2"⟩,
              ⟨2, 4, [3]⟩,
              setRec [("aa", ⟨3, 7200, "h"⟩)] "aa" ⟨3, goRoundUnix (0 + 3600000000000), "h2"⟩⟩,
            some (3, roundDur 3600000000000), some "aa"⟩
        else ⟨⟨[("aa", ⟨3, 7200, "h"⟩)], ⟨2, 4, [3]⟩, [("aa", ⟨3, 7200, "h"⟩)]⟩,
            some (3, roundDur 3600000000000), none⟩ :=
  ⟨by decide, renewal_threshold ⟨[("aa", ⟨3, 7200, "h"⟩)], ⟨2, 4, [3]⟩, [("aa", ⟨3, 7200, "h"⟩)]⟩
    3600000000000 "aa" "h2" 0 ⟨3, 7200, "h"⟩ (by decide)⟩

/-- C2: when no record exists for the client and the allocator fails, the
handler drops the request (`resp = none`), creates no record, makes no
persistence call, and leaves the table, the allocator, and the durable store
exactly as they were. -/
theorem alloc_failure_no_mutation (w : World) (D : Int) (hw hn : String) (now : Int) (p : Bool)
    (hrec : lookupRec w.records hw = none) (halloc : w.alloc.allocateAny = none) :
    handler4 w D hw hn now p = ⟨w, none, none⟩ :=
  handler4_fresh_fail w D hw hn now p hrec halloc

theorem alloc_failure_no_mutation_witness :
    lookupRec ([] : List (String × Record)) "aa" = none ∧
      Allocator.allocateAny ⟨2, 2, [2]⟩ = none ∧
      handler4 ⟨[], ⟨2, 2, [2]⟩, []⟩ 3600000000000 "aa" "h" 0 true =
        ⟨⟨[], ⟨2, 2, [2]⟩, []⟩, none, none⟩ :=
  ⟨by decide, by decide, alloc_failure_no_mutation _ _ _ _ _ _ (by decide) (by decide)⟩

/-- C3: a failing durable-store write changes nothing about the outcome except
durability: the resulting table, allocator, response and persistence attempt
are identical to the successful-write run, the store is left unchanged, and
whenever a write was attempted the client is still served an address together
with the full (rounded) configured lease duration held by its record. -/
theorem persist_failure_nonfatal (w : World) (D : Int) (hw hn : String) (now : Int) :
    (handler4 w D hw hn now false).w.records = (handler4 w D hw hn now true).w.records ∧
    (handler4 w D hw hn now false).w.alloc = (handler4 w D hw hn now true).w.alloc ∧
    (handler4 w D hw hn now false).resp = (handler4 w D hw hn now true).resp ∧
    (handler4 w D hw hn now false).saved = (handler4 w D hw hn now true).saved ∧
    (handler4 w D hw hn now false).w.store = w.store ∧
    (∀ k, (handler4 w D hw hn now false).saved = some k →
      ∃ ip r2, (handler4 w D hw hn now false).resp = some (ip, roundDur D) ∧
        lookupRec (handler4 w D hw hn now false).w.records k = some r2 ∧ r2.ip = ip) := by
  cases hrec : lookupRec w.records hw with
  | none =>
    cases halloc : w.alloc.allocateAny with
    | none =>
      rw [handler4_fresh_fail w D hw hn now false hrec halloc,
        handler4_fresh_fail w D hw hn now true hrec halloc]
      exact ⟨rfl, rfl, rfl, rfl, rfl, fun k hk => by cases hk⟩
    | some pr =>
      obtain ⟨ip, a2⟩ := pr
      rw [handler4_fresh_some w D hw hn now false ip a2 hrec halloc,
        handler4_fresh_some w D hw hn now true ip a2 hrec halloc]
      refine ⟨rfl, rfl, rfl, rfl, rfl, fun k hk => ?_⟩
      obtain rfl : hw = k := Option.some.inj hk
      exact ⟨ip, _, rfl, lookupRec_setRec_self _ _ _, rfl⟩
  | some r =>
    by_cases hc : r.expires * secNS < now + D
    · rw [handler4_renew w D hw hn now false r hrec hc,
        handler4_renew w D hw hn now true r hrec hc]
      refine ⟨rfl, rfl, rfl, rfl, rfl, fun k hk => ?_⟩
      obtain rfl : hw = k := Option.some.inj hk
      exact ⟨r.ip, _, rfl, lookupRec_setRec_self _ _ _, rfl⟩
    · rw [handler4_norenew w D hw hn now false r hrec hc,
        handler4_norenew w D hw hn now true r hrec hc]
      exact ⟨rfl, rfl, rfl, rfl, rfl, fun k hk => by cases hk⟩

theorem persist_failure_nonfatal_witness :
    (handler4 ⟨[("aa", ⟨3, 0, "h"⟩)], ⟨2, 4, [3]⟩, [("aa", ⟨3, 0, "h"⟩)]⟩
        3600000000000 "aa" "h" 0 false).w.records =
      (handler4 ⟨[("aa", ⟨3, 0, "h"⟩)], ⟨2, 4, [3]⟩, [("aa", ⟨3, 0, "h"⟩)]⟩
        3600000000000 "aa" "h" 0 true).w.records ∧
    (handler4 ⟨[("aa", ⟨3, 0, "h"⟩)], ⟨2, 4, [3]⟩, [("aa", ⟨3, 0, "h"⟩)]⟩
        3600000000000 "aa" "h" 0 false).w.alloc =
      (handler4 ⟨[("aa", ⟨3, 0, "h"⟩)], ⟨2, 4, [3]⟩, [("aa", ⟨3, 0, "h"⟩)]⟩
        3600000000000 "aa" "h" 0 true).w.alloc ∧
    (handler4 ⟨[("aa", ⟨3, 0, "h"⟩)], ⟨2, 4, [3]⟩, [("aa", ⟨3, 0, "h"⟩)]⟩
        3600000000000 "aa" "h" 0 false).resp =
      (handler4 ⟨[("aa", ⟨3, 0, "h"⟩)], ⟨2, 4, [3]⟩, [("aa", ⟨3, 0, "h"⟩)]⟩
        3600000000000 "aa" "h" 0 true).resp ∧
    (handler4 ⟨[("aa", ⟨3, 0, "h"⟩)], ⟨2, 4, [3]⟩, [("aa", ⟨3, 0, "h"⟩)]⟩
        3600000000000 "aa" "h" 0 false).saved =
      (handler4 ⟨[("aa", ⟨3, 0, "h"⟩)], ⟨2, 4, [3]⟩, [("aa", ⟨3, 0, "h"⟩)]⟩
        3600000000000 "aa" "h" 0 true).saved ∧
    (handler4 ⟨[("aa", ⟨3, 0, "h"⟩)], ⟨2, 4, [3]⟩, [("aa", ⟨3, 0, "h"⟩)]⟩
        3600000000000 "aa" "h" 0 false).w.store = [("aa", ⟨3, 0, "h"⟩)] ∧
    (∀ k, (handler4 ⟨[("aa", ⟨3, 0, "h"⟩)], ⟨2, 4, [3]⟩, [("aa", ⟨3, 0, "h"⟩)]⟩
        3600000000000 "aa" "h" 0 false).saved = some k →
      ∃ ip r2, (handler4 ⟨[("aa", ⟨3, 0, "h"⟩)], ⟨2, 4, [3]⟩, [("aa", ⟨3, 0, "h"⟩)]⟩
          3600000000000 "aa" "h" 0 false).resp = some (ip, roundDur 3600000000000) ∧
        lookupRec (handler4 ⟨[("aa", ⟨3, 0, "h"⟩)], ⟨2, 4, [3]⟩, [("aa", ⟨3, 0, "h"⟩)]⟩
          3600000000000 "aa" "h" 0 false).w.records k = some r2 ∧ r2.ip = ip) :=
  persist_failure_nonfatal _ _ _ _ _

/-- C6: a client that already has a record is always answered with that
record's address, and a `Lease` call never changes the address field of the
record; in particular two successive calls for the same hardware identifier
return the same address, only the expiry and hostname possibly changing. -/
theorem lease_stability (w : World) (D : Int) (h hn1 hn2 : String) (t1 t2 : Int) (p1 p2 : Bool)
    (r : Record) (hrec : lookupRec w.records h = some r) :
    (handler4 w D h hn1 t1 p1).resp = some (r.ip, roundDur D) ∧
    (∃ r1, lookupRec (handler4 w D h hn1 t1 p1).w.records h = some r1 ∧ r1.ip = r.ip) ∧
    (handler4 (handler4 w D h hn1 t1 p1).w D h hn2 t2 p2).resp = some (r.ip, roundDur D) ∧
    (∃ r2, lookupRec (handler4 (handler4 w D h hn1 t1 p1).w D h hn2 t2 p2).w.records h =
        some r2 ∧ r2.ip = r.ip) := by
  obtain ⟨hresp1, r1, hl1, hip1⟩ := handler4_existing w D h hn1 t1 p1 r hrec
  obtain ⟨hresp2, r2, hl2, hip2⟩ := handler4_existing _ D h hn2 t2 p2 r1 hl1
  exact ⟨hresp1, ⟨r1, hl1, hip1⟩, by rw [hresp2, hip1], ⟨r2, hl2, by rw [hip2, hip1]⟩⟩

theorem lease_stability_witness :
    lookupRec [("aa", (⟨3, 0, "h"⟩ : Record))] "aa" = some (⟨3, 0, "h"⟩ : Record) ∧
      ((handler4 ⟨[("aa", ⟨3, 0, "h"⟩)], ⟨2, 4, [3]⟩, []⟩ 3600000000000 "aa" "h1" 0 true).resp =
          some (3, roundDur 3600000000000) ∧
        (∃ r1, lookupRec (handler4 ⟨[("aa", ⟨3, 0, "h"⟩)], ⟨2, 4, [3]⟩, []⟩
            3600000000000 "aa" "h1" 0 true).w.records "aa" = some r1 ∧ r1.ip = 3) ∧
        (handler4 (handler4 ⟨[("aa", ⟨3, 0, "h"⟩)], ⟨2, 4, [3]⟩, []⟩
            3600000000000 "aa" "h1" 0 true).w 3600000000000 "aa" "h2" 60000000000 true).resp =
          some (3, roundDur 3600000000000) ∧
        (∃ r2, lookupRec (handler4 (handler4 ⟨[("aa", ⟨3, 0, "h"⟩)], ⟨2, 4, [3]⟩, []⟩
            3600000000000 "aa" "h1" 0 true).w 3600000000000 "aa" "h2"
            60000000000 true).w.records "aa" = some r2 ∧ r2.ip = 3)) :=
  ⟨by decide, lease_stability ⟨[("aa", ⟨3, 0, "h"⟩)], ⟨2, 4, [3]⟩, []⟩ 3600000000000
    "aa" "h1" "h2" 0 60000000000 true true ⟨3, 0, "h"⟩ (by decide)⟩

/-- C8 counterexample: with a configured lease duration of 1.5 seconds
(`1500000000` ns, a value `time.ParseDuration` accepts as `"1.5s"`), the
lifetime written into the response is the rounded 2 seconds, not the
configured duration itself. -/
theorem lease_time_cex :
    (handler4 ⟨[("aa", ⟨3, 0, "h"⟩)], ⟨2, 4, [3]⟩, []⟩ 1500000000 "aa" "h" 0 true).resp =
      some (3, 2000000000) ∧ (2000000000 : Int) ≠ (1500000000 : Int) := by decide

/-- C8 (amended): every successful `Lease` response carries, independently of
the record's remaining durable expiry and of which branch was taken, the full
configured lease duration rounded to whole seconds (`LeaseTime.Round(time.Second)`),
counted from now. -/
theorem lease_time_full_rounded (w : World) (D : Int) (hw hn : String) (now : Int) (p : Bool)
    (ip : Nat) (t : Int) (h : (handler4 w D hw hn now p).resp = some (ip, t)) :
    t = roundDur D := by
  cases hrec : lookupRec w.records hw with
  | none =>
    cases halloc : w.alloc.allocateAny with
    | none =>
      rw [handler4_fresh_fail w D hw hn now p hrec halloc] at h
      cases h
    | some pr =>
      obtain ⟨ip2, a2⟩ := pr
      rw [handler4_fresh_some w D hw hn now p ip2 a2 hrec halloc] at h
      simp only [Option.some.injEq, Prod.mk.injEq] at h
      exact h.2.symm
  | some r =>
    by_cases hc : r.expires * secNS < now + D
    · rw [handler4_renew w D hw hn now p r hrec hc] at h
      simp only [Option.some.injEq, Prod.mk.injEq] at h
      exact h.2.symm
    · rw [handler4_norenew w D hw hn now p r hrec hc] at h
      simp only [Option.some.injEq, Prod.mk.injEq] at h
      exact h.2.symm

theorem lease_time_full_rounded_witness :
    (handler4 ⟨[], ⟨2, 4, []⟩, []⟩ 1500000000 "aa" "h" 0 true).resp = some (2, 2000000000) ∧
      (2000000000 : Int) = roundDur 1500000000 :=
  ⟨by decide, lease_time_full_rounded ⟨[], ⟨2, 4, []⟩, []⟩ 1500000000 "aa" "h" 0 true
    2 2000000000 (by decide)⟩

/-- C10: the handler never validates the client hardware identifier: the empty
rendering (an absent/zero `ClientHWAddr` renders as the empty string) is looked
up like any other key and, when unknown, is leased a fresh address and given a
record under the empty key, exactly like any other client. -/
theorem empty_hw_leased_like_any (w : World) (D : Int) (hn : String) (now : Int)
    (ip : Nat) (a2 : Allocator)
    (hrec : lookupRec w.records "" = none) (halloc : w.alloc.allocateAny = some (ip, a2)) :
    handler4 w D "" hn now true =
      ⟨⟨setRec w.records "" ⟨ip, goUnix (now + D), hn⟩, a2,
          setRec w.store "" ⟨ip, goUnix (now + D), hn⟩⟩,
        some (ip, roundDur D), some ""⟩ := by
  rw [handler4_fresh_some w D "" hn now true ip a2 hrec halloc]
  rfl

theorem empty_hw_leased_like_any_witness :
    lookupRec ([("aa", (⟨2, 0, "h"⟩ : Record))]) "" = none ∧
      Allocator.allocateAny ⟨2, 4, [2]⟩ = some (3, ⟨2, 4, [3, 2]⟩) ∧
      handler4 ⟨[("aa", ⟨2, 0, "h"⟩)], ⟨2, 4, [2]⟩, []⟩ 3600000000000 "" "h" 0 true =
        ⟨⟨setRec [("aa", ⟨2, 0, "h"⟩)] "" ⟨3, goUnix (0 + 3600000000000), "h"⟩, ⟨2, 4, [3, 2]⟩,
            setRec [] "" ⟨3, goUnix (0 + 3600000000000), "h"⟩⟩,
          some (3, roundDur 3600000000000), some ""⟩ :=
  ⟨by decide, by decide, empty_hw_leased_like_any _ _ _ _ _ _ (by decide) (by decide)⟩

theorem goRoundUnix_ge (E t : Int) (h : E * secNS < t) : E ≤ goRoundUnix t := by
  simp only [goRoundUnix, secNS] at h ⊢
  rw [Int.fdiv_eq_ediv _ (by norm_num)]
  omega

theorem handler4_frame (w : World) (D : Int) (hw hn : String) (now : Int) (p : Bool)
    (k : String) (hk : k ≠ hw) :
    lookupRec (handler4 w D hw hn now p).w.records k = lookupRec w.records k ∧
    lookupRec (handler4 w D hw hn now p).w.store k = lookupRec w.store k := by
  cases hrec : lookupRec w.records hw with
  | none =>
    cases halloc : w.alloc.allocateAny with
    | none =>
      rw [handler4_fresh_fail w D hw hn now p hrec halloc]
      exact ⟨rfl, rfl⟩
    | some pr =>
      obtain ⟨ip, a2⟩ := pr
      rw [handler4_fresh_some w D hw hn now p ip a2 hrec halloc]
      refine ⟨lookupRec_setRec_ne _ _ _ _ hk, ?_⟩
      cases p with
      | true => exact lookupRec_setRec_ne _ _ _ _ hk
      | false => rfl
  | some r =>
    by_cases hc : r.expires * secNS < now + D
    · rw [handler4_renew w D hw hn now p r hrec hc]
      refine ⟨lookupRec_setRec_ne _ _ _ _ hk, ?_⟩
      cases p with
      | true => exact lookupRec_setRec_ne _ _ _ _ hk
      | false => rfl
    · rw [handler4_norenew w D hw hn now p r hrec hc]
      exact ⟨rfl, rfl⟩

theorem runLease_append (D : Int) (w : World) (qs qs2 : List Req) :
    runLease D w (qs ++ qs2) = runLease D (runLease D w qs) qs2 := by
  induction qs generalizing w with
  | nil => rfl
  | cons q rest ih =>
    simp only [runLease, List.cons_append]
    exact ih _

theorem expires_mono_step (w : World) (D : Int) (h : String) (rm rs : Record) (q : Req)
    (hm : lookupRec w.records h = some rm) (hs : lookupRec w.store h = some rs)
    (hle : rs.expires ≤ rm.expires) :
    ∃ rm2 rs2,
      lookupRec (handler4 w D q.hw q.hostname q.now q.persistOk).w.records h = some rm2 ∧
      lookupRec (handler4 w D q.hw q.hostname q.now q.persistOk).w.store h = some rs2 ∧
      rm.expires ≤ rm2.expires ∧ rs.expires ≤ rs2.expires ∧ rs2.expires ≤ rm2.expires := by
  by_cases hhw : q.hw = h
  · rw [hhw]
    rw [hhw] at *
    by_cases hc : rm.expires * secNS < q.now + D
    · rw [handler4_renew w D h q.hostname q.now q.persistOk rm hm hc]
      have hge : rm.expires ≤ goRoundUnix (q.now + D) := goRoundUnix_ge _ _ hc
      cases hp : q.persistOk with
      | true =>
        exact ⟨_, _, lookupRec_setRec_self _ _ _, lookupRec_setRec_self _ _ _,
          hge, le_trans hle hge, le_refl _⟩
      | false =>
        exact ⟨_, rs, lookupRec_setRec_self _ _ _, hs, hge, le_refl _, le_trans hle hge⟩
    · rw [handler4_norenew w D h q.hostname q.now q.persistOk rm hm hc]
      exact ⟨rm, rs, hm, hs, le_refl _, le_refl _, hle⟩
  · obtain ⟨hf1, hf2⟩ := handler4_frame w D q.hw q.hostname q.now q.persistOk h
      (fun e => hhw e.symm)
    exact ⟨rm, rs, by rw [hf1]; exact hm, by rw [hf2]; exact hs,
      le_refl _, le_refl _, hle⟩

theorem expires_mono_run (D : Int) (h : String) (qs : List Req) :
    ∀ (w : World) (rm rs : Record),
      lookupRec w.records h = some rm → lookupRec w.store h = some rs →
      rs.expires ≤ rm.expires →
      ∃ rm2 rs2, lookupRec (runLease D w qs).records h = some rm2 ∧
        lookupRec (runLease D w qs).store h = some rs2 ∧
        rm.expires ≤ rm2.expires ∧ rs.expires ≤ rs2.expires ∧
        rs2.expires ≤ rm2.expires := by
  induction qs with
  | nil =>
    intro w rm rs hm hs hle
    exact ⟨rm, rs, hm, hs, le_refl _, le_refl _, hle⟩
  | cons q rest ih =>
    intro w rm rs hm hs hle
    obtain ⟨rm1, rs1, hm1, hs1, h1, h2, h3⟩ := expires_mono_step w D h rm rs q hm hs hle
    obtain ⟨rm2, rs2, hm2, hs2, g1, g2, g3⟩ := ih _ rm1 rs1 hm1 hs1 h3
    exact ⟨rm2, rs2, hm2, hs2, le_trans h1 g1, le_trans h2 g2, g3⟩

/-- C9: along any sequence of `Lease` calls, the durable `expires` value of a
record (its durable copy starting no later than its in-memory one, as holds
after startup) is monotonically non-decreasing at every cut point of the run:
a renewal never replaces the stored expiry with an earlier one, the
whole-second rounding of the new expiry included. Proved without even needing
the request times to be non-decreasing. -/
theorem durable_expires_monotone (w : World) (D : Int) (h : String) (rm rs : Record)
    (hm : lookupRec w.records h = some rm) (hs : lookupRec w.store h = some rs)
    (hle : rs.expires ≤ rm.expires) (qs qs2 : List Req) :
    ∃ rs1 rs2, lookupRec (runLease D w qs).store h = some rs1 ∧
      lookupRec (runLease D w (qs ++ qs2)).store h = some rs2 ∧
      rs1.expires ≤ rs2.expires := by
  obtain ⟨rm1, rs1, hm1, hs1, _, _, h3⟩ := expires_mono_run D h qs w rm rs hm hs hle
  obtain ⟨rm2, rs2, hm2, hs2, _, g2, _⟩ := expires_mono_run D h qs2 _ rm1 rs1 hm1 hs1 h3
  rw [runLease_append]
  exact ⟨rs1, rs2, hs1, hs2, g2⟩

theorem durable_expires_monotone_witness :
    lookupRec [("aa", (⟨3, 10, "h"⟩ : Record))] "aa" = some (⟨3, 10, "h"⟩ : Record) ∧
      (10 : Int) ≤ (10 : Int) ∧
      ∃ rs1 rs2,
        lookupRec (runLease 3600000000000
            ⟨[("aa", ⟨3, 10, "h"⟩)], ⟨2, 4, [3]⟩, [("aa", ⟨3, 10, "h"⟩)]⟩
            [⟨"aa", "h1", 20000000000, true⟩]).store "aa" = some rs1 ∧
        lookupRec (runLease 3600000000000
            ⟨[("aa", ⟨3, 10, "h"⟩)], ⟨2, 4, [3]⟩, [("aa", ⟨3, 10, "h"⟩)]⟩
            ([⟨"aa", "h1", 20000000000, true⟩] ++ [⟨"aa", "h2", 50000000000, true⟩])).store
            "aa" = some rs2 ∧
        rs1.expires ≤ rs2.expires :=
  ⟨by decide, by decide,
    durable_expires_monotone ⟨[("aa", ⟨3, 10, "h"⟩)], ⟨2, 4, [3]⟩, [("aa", ⟨3, 10, "h"⟩)]⟩
      3600000000000 "aa" ⟨3, 10, "h"⟩ ⟨3, 10, "h"⟩ (by decide) (by decide) (by decide)
      [⟨"aa", "h1", 20000000000, true⟩] [⟨"aa", "h2", 50000000000, true⟩]⟩

theorem replay_taken_sub (recs : List (String × Record)) :
    ∀ a a2, replayRecords a recs = some a2 → ∀ x, x ∈ a.taken → x ∈ a2.taken := by
  induction recs with
  | nil =>
    intro a a2 h x hx
    cases h
    exact hx
  | cons kv rest ih =>
    intro a a2 h x hx
    obtain ⟨k, v⟩ := kv
    cases he : a.allocateExact v.ip with
    | none =>
      simp only [replayRecords, he] at h
      cases h
    | some pr =>
      obtain ⟨ip, a1⟩ := pr
      simp only [replayRecords, he] at h
      by_cases hip : ip = v.ip
      · rw [if_pos hip] at h
        subst hip
        obtain ⟨hnm, ha1⟩ := allocateExact_exact a v.ip a1 he
        subst ha1
        exact ih _ a2 h x (List.mem_cons_of_mem _ hx)
      · rw [if_neg hip] at h
        cases h

theorem replay_fresh (recs : List (String × Record)) :
    ∀ a a2, replayRecords a recs = some a2 →
      (∀ kv ∈ recs, kv.2.ip ∉ a.taken ∧ kv.2.ip ∈ a2.taken) ∧
      (recs.map (fun kv => kv.2.ip)).Nodup := by
  induction recs with
  | nil =>
    intro a a2 h
    exact ⟨by simp, List.nodup_nil⟩
  | cons kv rest ih =>
    intro a a2 h
    obtain ⟨k, v⟩ := kv
    cases he : a.allocateExact v.ip with
    | none =>
      simp only [replayRecords, he] at h
      cases h
    | some pr =>
      obtain ⟨ip, a1⟩ := pr
      simp only [replayRecords, he] at h
      by_cases hip : ip = v.ip
      · rw [if_pos hip] at h
        subst hip
        obtain ⟨hnm, ha1⟩ := allocateExact_exact a v.ip a1 he
        subst ha1
        obtain ⟨hmem, hnd⟩ := ih _ a2 h
        constructor
        · intro kv2 hkv2
          rcases List.mem_cons.mp hkv2 with hkv2 | hkv2
          · subst hkv2
            exact ⟨hnm, replay_taken_sub rest _ a2 h v.ip (List.mem_cons_self _ _)⟩
          · obtain ⟨hf1, hf2⟩ := hmem kv2 hkv2
            exact ⟨fun hx => hf1 (List.mem_cons_of_mem _ hx), hf2⟩
        · rw [List.map_cons, List.nodup_cons]
          refine ⟨fun hvin => ?_, hnd⟩
          obtain ⟨kv2, hkv2, hipeq⟩ := List.mem_map.mp hvin
          obtain ⟨hf1, -⟩ := hmem kv2 hkv2
          rw [hipeq] at hf1
          exact hf1 (List.mem_cons_self _ _)
      · rw [if_neg hip] at h
        cases h

theorem setup_ok_inv (args : List String) (loaded : Option (List (String × Record)))
    (w : World) (d : Int) (h : setupConsulRange args loaded = SetupResult.ok w d) :
    ¬ args.length < 5 ∧ args.getD 0 "" ≠ "" ∧ args.getD 1 "" ≠ "" ∧
    ∃ lo hi recs, parseIPv4 (args.getD 2 "") = some lo ∧
      parseIPv4 (args.getD 3 "") = some hi ∧ ¬ lo ≥ hi ∧
      parseGoDuration (args.getD 4 "") = some d ∧ loaded = some recs ∧
      replayRecords ⟨lo, hi, []⟩ recs = some w.alloc ∧
      w.records = recs ∧ w.store = recs := by
  by_cases h5 : args.length < 5
  · simp only [setupConsulRange, if_pos h5] at h
    cases h
  · by_cases h0 : args.getD 0 "" = ""
    · simp only [setupConsulRange, if_neg h5, if_pos h0] at h
      cases h
    · by_cases h1 : args.getD 1 "" = ""
      · simp only [setupConsulRange, if_neg h5, if_neg h0, if_pos h1] at h
        cases h
      · cases hp2 : parseIPv4 (args.getD 2 "") with
        | none =>
          simp only [setupConsulRange, if_neg h5, if_neg h0, if_neg h1, hp2] at h
          cases h
        | some lo =>
        cases hp3 : parseIPv4 (args.getD 3 "") with
        | none =>
          simp only [setupConsulRange, if_neg h5, if_neg h0, if_neg h1, hp2, hp3] at h
          cases h
        | some hi =>
        by_cases hge : lo ≥ hi
        · simp only [setupConsulRange, if_neg h5, if_neg h0, if_neg h1, hp2, hp3,
            if_pos hge] at h
          cases h
        · cases hdur : parseGoDuration (args.getD 4 "") with
          | none =>
            simp only [setupConsulRange, if_neg h5, if_neg h0, if_neg h1, hp2, hp3,
              if_neg hge, hdur] at h
            cases h
          | some dv =>
          cases loaded with
          | none =>
            simp only [setupConsulRange, if_neg h5, if_neg h0, if_neg h1, hp2, hp3,
              if_neg hge, hdur] at h
            cases h
          | some recs =>
          cases hrep : replayRecords ⟨lo, hi, []⟩ recs with
          | none =>
            simp only [setupConsulRange, if_neg h5, if_neg h0, if_neg h1, hp2, hp3,
              if_neg hge, hdur, hrep] at h
            cases h
          | some a2 =>
          simp only [setupConsulRange, if_neg h5, if_neg h0, if_neg h1, hp2, hp3,
            if_neg hge, hdur, hrep, SetupResult.ok.injEq] at h
          obtain ⟨hw, hdd⟩ := h
          subst hdd
          subst hw
          exact ⟨h5, h0, h1, lo, hi, recs, rfl, rfl, hge, rfl, rfl, hrep, rfl, rfl⟩

theorem inv_step (w : World) (D : Int) (hw hn : String) (now : Int) (p : Bool)
    (hinv : LeaseInv w) : LeaseInv (handler4 w D hw hn now p).w := by
  obtain ⟨hinj, hcov⟩ := hinv
  cases hrec : lookupRec w.records hw with
  | none =>
    cases halloc : w.alloc.allocateAny with
    | none =>
      rw [handler4_fresh_fail w D hw hn now p hrec halloc]
      exact ⟨hinj, hcov⟩
    | some pr =>
      obtain ⟨ip, a2⟩ := pr
      obtain ⟨hlo, hhi, hnm, ha2⟩ := allocateAny_some w.alloc ip a2 halloc
      rw [handler4_fresh_some w D hw hn now p ip a2 hrec halloc]
      subst ha2
      constructor
      · intro k1 k2 r1 r2 hne hl1 hl2
        by_cases e1 : k1 = hw
        · subst e1
          rw [lookupRec_setRec_self] at hl1
          have e2 : k2 ≠ k1 := fun e => hne e.symm
          rw [lookupRec_setRec_ne _ _ _ _ e2] at hl2
          obtain rfl := Option.some.inj hl1
          have hr2 := hcov k2 r2 hl2
          intro he
          rw [← he] at hr2
          exact hnm hr2
        · rw [lookupRec_setRec_ne _ _ _ _ e1] at hl1
          by_cases e2 : k2 = hw
          · subst e2
            rw [lookupRec_setRec_self] at hl2
            obtain rfl := Option.some.inj hl2
            have hr1 := hcov k1 r1 hl1
            intro he
            rw [he] at hr1
            exact hnm hr1
          · rw [lookupRec_setRec_ne _ _ _ _ e2] at hl2
            exact hinj k1 k2 r1 r2 hne hl1 hl2
      · intro k r hl
        show r.ip ∈ ip :: w.alloc.taken
        by_cases e : k = hw
        · subst e
          rw [lookupRec_setRec_self] at hl
          obtain rfl := Option.some.inj hl
          exact List.mem_cons_self _ _
        · rw [lookupRec_setRec_ne _ _ _ _ e] at hl
          exact List.mem_cons_of_mem _ (hcov k r hl)
  | some r =>
    by_cases hc : r.expires * secNS < now + D
    · rw [handler4_renew w D hw hn now p r hrec hc]
      constructor
      · intro k1 k2 r1 r2 hne hl1 hl2
        by_cases e1 : k1 = hw
        · subst e1
          rw [lookupRec_setRec_self] at hl1
          obtain rfl := Option.some.inj hl1
          have e2 : k2 ≠ k1 := fun e => hne e.symm
          rw [lookupRec_setRec_ne _ _ _ _ e2] at hl2
          exact hinj k1 k2 r r2 hne hrec hl2
        · rw [lookupRec_setRec_ne _ _ _ _ e1] at hl1
          by_cases e2 : k2 = hw
          · subst e2
            rw [lookupRec_setRec_self] at hl2
            obtain rfl := Option.some.inj hl2
            exact hinj k1 k2 r1 r hne hl1 hrec
          · rw [lookupRec_setRec_ne _ _ _ _ e2] at hl2
            exact hinj k1 k2 r1 r2 hne hl1 hl2
      · intro k r3 hl
        by_cases e : k = hw
        · subst e
          rw [lookupRec_setRec_self] at hl
          obtain rfl := Option.some.inj hl
          exact hcov k r hrec
        · rw [lookupRec_setRec_ne _ _ _ _ e] at hl
          exact hcov k r3 hl
    · rw [handler4_norenew w D hw hn now p r hrec hc]
      exact ⟨hinj, hcov⟩

theorem inv_run (D : Int) (qs : List Req) :
    ∀ w, LeaseInv w → LeaseInv (runLease D w qs) := by
  induction qs with
  | nil => intro w h; exact h
  | cons q rest ih =>
    intro w h
    exact ih _ (inv_step w D q.hw q.hostname q.now q.persistOk h)

theorem inv_of_replay (w : World) (a : Allocator)
    (hrep : replayRecords a w.records = some w.alloc) : LeaseInv w := by
  obtain ⟨hmem, hnd⟩ := replay_fresh w.records a w.alloc hrep
  constructor
  · intro k1 k2 r1 r2 hne hl1 hl2 heq
    have m1 := lookupRec_mem _ _ _ hl1
    have m2 := lookupRec_mem _ _ _ hl2
    have key : (k1, r1) = (k2, r2) := List.inj_on_of_nodup_map hnd m1 m2 heq
    exact hne (congrArg Prod.fst key)
  · intro k r hl
    exact (hmem (k, r) (lookupRec_mem _ _ _ hl)).2

theorem handler4_resp_ip (w : World) (D : Int) (hw hn : String) (now : Int) (p : Bool)
    (ip : Nat) (t : Int) (h : (handler4 w D hw hn now p).resp = some (ip, t)) :
    ∃ r2, lookupRec (handler4 w D hw hn now p).w.records hw = some r2 ∧ r2.ip = ip := by
  cases hrec : lookupRec w.records hw with
  | none =>
    cases halloc : w.alloc.allocateAny with
    | none =>
      rw [handler4_fresh_fail w D hw hn now p hrec halloc] at h
      cases h
    | some pr =>
      obtain ⟨ip2, a2⟩ := pr
      rw [handler4_fresh_some w D hw hn now p ip2 a2 hrec halloc] at h ⊢
      simp only [Option.some.injEq, Prod.mk.injEq] at h
      obtain ⟨rfl, -⟩ := h
      exact ⟨_, lookupRec_setRec_self _ _ _, rfl⟩
  | some r =>
    by_cases hc : r.expires * secNS < now + D
    · rw [handler4_renew w D hw hn now p r hrec hc] at h ⊢
      simp only [Option.some.injEq, Prod.mk.injEq] at h
      obtain ⟨rfl, -⟩ := h
      exact ⟨_, lookupRec_setRec_self _ _ _, rfl⟩
    · rw [handler4_norenew w D hw hn now p r hrec hc] at h ⊢
      simp only [Option.some.injEq, Prod.mk.injEq] at h
      obtain ⟨rfl, -⟩ := h
      exact ⟨r, hrec, rfl⟩

/-- C7: in every state reached by a successful startup followed by any
sequence of `Lease` operations, no IPv4 address appears in more than one
lease-table record (invariant I3), and two distinct hardware identifiers are
never answered with equal addresses. -/
theorem lease_injectivity (args : List String) (recs : List (String × Record)) (w0 : World)
    (d : Int) (hok : setupConsulRange args (some recs) = SetupResult.ok w0 d)
    (qs : List Req) (h1 h2 hn1 hn2 : String) (t1 t2 : Int) (p1 p2 : Bool) (hne : h1 ≠ h2) :
    tableInj (runLease d w0 qs) ∧
    ∀ ip1 lt1 ip2 lt2,
      (handler4 (runLease d w0 qs) d h1 hn1 t1 p1).resp = some (ip1, lt1) →
      (handler4 (handler4 (runLease d w0 qs) d h1 hn1 t1 p1).w d h2 hn2 t2 p2).resp =
        some (ip2, lt2) → ip1 ≠ ip2 := by
  obtain ⟨-, -, -, lo, hi, recs2, -, -, -, -, hl, hrep, hw0rec, -⟩ :=
    setup_ok_inv args (some recs) w0 d hok
  have hrep0 : replayRecords ⟨lo, hi, []⟩ w0.records = some w0.alloc := by
    rw [hw0rec]
    exact hrep
  have hinv0 : LeaseInv w0 := inv_of_replay w0 ⟨lo, hi, []⟩ hrep0
  have hinv1 : LeaseInv (runLease d w0 qs) := inv_run d qs w0 hinv0
  refine ⟨hinv1.1, ?_⟩
  intro ip1 lt1 ip2 lt2 hr1 hr2
  obtain ⟨ra, hla, hipa⟩ := handler4_resp_ip (runLease d w0 qs) d h1 hn1 t1 p1 ip1 lt1 hr1
  have hinv2 : LeaseInv (handler4 (runLease d w0 qs) d h1 hn1 t1 p1).w :=
    inv_step _ d h1 hn1 t1 p1 hinv1
  obtain ⟨rb, hlb, hipb⟩ := handler4_resp_ip _ d h2 hn2 t2 p2 ip2 lt2 hr2
  have hinv3 : LeaseInv
      (handler4 (handler4 (runLease d w0 qs) d h1 hn1 t1 p1).w d h2 hn2 t2 p2).w :=
    inv_step _ d h2 hn2 t2 p2 hinv2
  have hfr := (handler4_frame (handler4 (runLease d w0 qs) d h1 hn1 t1 p1).w
    d h2 hn2 t2 p2 h1 hne).1
  have hla2 : lookupRec
      (handler4 (handler4 (runLease d w0 qs) d h1 hn1 t1 p1).w d h2 hn2 t2 p2).w.records h1 =
      some ra := by
    rw [hfr]
    exact hla
  have hipne := hinv3.1 h1 h2 ra rb hne hla2 hlb
  intro he
  exact hipne (by rw [hipa, hipb, he])

theorem lease_injectivity_witness :
    setupConsulRange ["u", "p", "10.0.0.2", "10.0.0.4", "1h"]
        (some [("aa", ⟨167772162, 100, "x"⟩)]) = SetupResult.ok w0c 3600000000000 ∧
    ("bb" : String) ≠ "cc" ∧
    (tableInj (runLease 3600000000000 w0c []) ∧
      ∀ ip1 lt1 ip2 lt2,
        (handler4 (runLease 3600000000000 w0c []) 3600000000000 "bb" "h1" 0 true).resp =
          some (ip1, lt1) →
        (handler4 (handler4 (runLease 3600000000000 w0c []) 3600000000000 "bb" "h1" 0
            true).w 3600000000000 "cc" "h2" 0 true).resp = some (ip2, lt2) →
        ip1 ≠ ip2) :=
  ⟨by decide, by decide,
    lease_injectivity ["u", "p", "10.0.0.2", "10.0.0.4", "1h"]
      [("aa", ⟨167772162, 100, "x"⟩)] w0c 3600000000000 (by decide)
      [] "bb" "cc" "h1" "h2" 0 0 true true (by decide)⟩

theorem replay_reqs_eq (recs : List (String × Record)) :
    ∀ a a2, replayRecords a recs = some a2 →
      replayReqs a recs = recs.map (fun kv => kv.2.ip) := by
  induction recs with
  | nil =>
    intro a a2 h
    rfl
  | cons kv rest ih =>
    intro a a2 h
    obtain ⟨k, v⟩ := kv
    cases he : a.allocateExact v.ip with
    | none =>
      simp only [replayRecords, he] at h
      cases h
    | some pr =>
      obtain ⟨ip, a1⟩ := pr
      simp only [replayRecords, he] at h
      by_cases hip : ip = v.ip
      · rw [if_pos hip] at h
        simp only [replayReqs, he, if_pos hip, List.map_cons]
        rw [ih a1 a2 h]
      · rw [if_neg hip] at h
        cases h

/-- C4: during startup-recovery the code asks the allocator to reserve, for
every loaded record in order, exactly that record's address (the request list
equals the records' address list), and whenever the replay fails — the
allocator reporting an address unavailable or handing back a different
address than requested (the two ways `replayRecords` yields `none`) — setup
returns an error, so serving never begins. -/
theorem startup_reserve_exact (args : List String) (recs : List (String × Record))
    (lo hi : Nat) (hp2 : parseIPv4 (args.getD 2 "") = some lo)
    (hp3 : parseIPv4 (args.getD 3 "") = some hi) :
    (∀ w0 d, setupConsulRange args (some recs) = SetupResult.ok w0 d →
      replayRecords ⟨lo, hi, []⟩ recs = some w0.alloc ∧
      replayReqs ⟨lo, hi, []⟩ recs = recs.map (fun kv => kv.2.ip)) ∧
    (replayRecords ⟨lo, hi, []⟩ recs = none →
      ∃ msg, setupConsulRange args (some recs) = SetupResult.err msg) := by
  constructor
  · intro w0 d hok
    obtain ⟨-, -, -, lo2, hi2, recs2, hp2b, hp3b, -, -, hl, hrep, -, -⟩ :=
      setup_ok_inv args (some recs) w0 d hok
    rw [hp2] at hp2b
    rw [hp3] at hp3b
    obtain rfl := Option.some.inj hp2b
    obtain rfl := Option.some.inj hp3b
    obtain rfl := Option.some.inj hl
    exact ⟨hrep, replay_reqs_eq _ _ _ hrep⟩
  · intro hnone
    cases hs : setupConsulRange args (some recs) with
    | err m => exact ⟨m, rfl⟩
    | ok w0 d =>
      exfalso
      obtain ⟨-, -, -, lo2, hi2, recs2, hp2b, hp3b, -, -, hl, hrep, -, -⟩ :=
        setup_ok_inv args (some recs) w0 d hs
      rw [hp2] at hp2b
      rw [hp3] at hp3b
      obtain rfl := Option.some.inj hp2b
      obtain rfl := Option.some.inj hp3b
      obtain rfl := Option.some.inj hl
      rw [hnone] at hrep
      cases hrep

theorem startup_reserve_exact_witness :
    parseIPv4 "10.0.0.2" = some 167772162 ∧ parseIPv4 "10.0.0.4" = some 167772164 ∧
    ((∀ w0 d, setupConsulRange ["u", "p", "10.0.0.2", "10.0.0.4", "1h"]
        (some [("aa", ⟨167772162, 100, "x"⟩), ("bb", ⟨167772162, 200, "y"⟩)]) =
          SetupResult.ok w0 d →
      replayRecords ⟨167772162, 167772164, []⟩
          [("aa", ⟨167772162, 100, "x"⟩), ("bb", ⟨167772162, 200, "y"⟩)] = some w0.alloc ∧
      replayReqs ⟨167772162, 167772164, []⟩
          [("aa", ⟨167772162, 100, "x"⟩), ("bb", ⟨167772162, 200, "y"⟩)] =
        ([("aa", (⟨167772162, 100, "x"⟩ : Record)), ("bb", ⟨167772162, 200, "y"⟩)]).map
          (fun kv => kv.2.ip)) ∧
    (replayRecords ⟨167772162, 167772164, []⟩
        [("aa", ⟨167772162, 100, "x"⟩), ("bb", ⟨167772162, 200, "y"⟩)] = none →
      ∃ msg, setupConsulRange ["u", "p", "10.0.0.2", "10.0.0.4", "1h"]
        (some [("aa", ⟨167772162, 100, "x"⟩), ("bb", ⟨167772162, 200, "y"⟩)]) =
          SetupResult.err msg)) :=
  ⟨by decide, by decide,
    startup_reserve_exact ["u", "p", "10.0.0.2", "10.0.0.4", "1h"]
      [("aa", ⟨167772162, 100, "x"⟩), ("bb", ⟨167772162, 200, "y"⟩)]
      167772162 167772164 (by decide) (by decide)⟩

/-- C5: setup returns an error whenever a parameter constraint is violated:
fewer than five arguments, empty store URL, empty key prefix, an unparseable
IPv4 range bound, a range start at or above the range end, or an unparseable
lease-duration literal. -/
theorem setup_rejects_bad_params (args : List String)
    (loaded : Option (List (String × Record)))
    (hviol : args.length < 5 ∨ args.getD 0 "" = "" ∨ args.getD 1 "" = "" ∨
      parseIPv4 (args.getD 2 "") = none ∨ parseIPv4 (args.getD 3 "") = none ∨
      (∃ lo hi, parseIPv4 (args.getD 2 "") = some lo ∧
        parseIPv4 (args.getD 3 "") = some hi ∧ hi ≤ lo) ∨
      parseGoDuration (args.getD 4 "") = none) :
    ∃ msg, setupConsulRange args loaded = SetupResult.err msg := by
  cases hs : setupConsulRange args loaded with
  | err m => exact ⟨m, rfl⟩
  | ok w d =>
    exfalso
    obtain ⟨h5, h0, h1, lo, hi, recs, hp2, hp3, hge, hdur, -, -, -, -⟩ :=
      setup_ok_inv args loaded w d hs
    rcases hviol with hv | hv | hv | hv | hv | ⟨lo2, hi2, hv2, hv3, hv⟩ | hv
    · exact h5 hv
    · exact h0 hv
    · exact h1 hv
    · rw [hv] at hp2
      cases hp2
    · rw [hv] at hp3
      cases hp3
    · rw [hp2] at hv2
      rw [hp3] at hv3
      obtain rfl := Option.some.inj hv2
      obtain rfl := Option.some.inj hv3
      exact hge hv
    · rw [hv] at hdur
      cases hdur

theorem setup_rejects_bad_params_witness :
    (["u"] : List String).length < 5 ∧
      ∃ msg, setupConsulRange ["u"] (some []) = SetupResult.err msg :=
  ⟨by decide, setup_rejects_bad_params ["u"] (some []) (Or.inl (by decide))⟩
